import Mathlib

/-!
Shallow embedding of `scripts/fetch-and-update.py`, a pipeline that fetches
orienteering ranking data from an IOF JSON API and paginated JOA HTML tables,
normalizes athlete records, and maintains a dated snapshot index.

Modelling conventions: Python exceptions are `Option`/`Except` failures;
machine floats are modelled by `ℚ` (every numeric literal the program handles
is decimal); the HTTP layer and the parsed HTML pages are oracles passed as
function arguments; Python's stable `list.sort` is modelled by stable
insertion sort, which agrees with any stable sort on the same key.
-/

namespace FetchUpdate

/-- Numeric value of a list of decimal digit characters, most significant first. -/
def digitsVal (ds : List Char) : Nat :=
  ds.foldl (fun n c => n * 10 + (c.toNat - 48)) 0

/-- Split an optional leading sign character: returns (isNegative, rest). -/
def stripSign : List Char → Bool × List Char
  | '-' :: r => (true, r)
  | '+' :: r => (false, r)
  | r => (false, r)

/-- Models Python `int(s)` on plain decimal literals: an optional sign followed
by one or more digits and nothing else.  (Whitespace/underscore forms Python
also accepts are outside the model.)  `none` models the raised `ValueError`. -/
def int_of_string (s : String) : Option Int :=
  let (neg, r) := stripSign s.data
  let ds := r.takeWhile Char.isDigit
  let rest := r.dropWhile Char.isDigit
  if ds.isEmpty ∨ rest.isEmpty = false then none
  else some (if neg then -(digitsVal ds : Int) else (digitsVal ds : Int))

/-- Mantissa of a Python float literal: `digits [. digits]` or `. digits`;
returns the combined digit value, the number of fraction digits (the mantissa
denotes `value / 10 ^ fracDigits`), and the unconsumed characters. -/
def parseMantissa (cs : List Char) : Option ((Nat × Nat) × List Char) :=
  let ip := cs.takeWhile Char.isDigit
  let r1 := cs.dropWhile Char.isDigit
  match r1 with
  | '.' :: r2 =>
    let fp := r2.takeWhile Char.isDigit
    let r3 := r2.dropWhile Char.isDigit
    if ip.isEmpty ∧ fp.isEmpty then none
    else some ((digitsVal ip * 10 ^ fp.length + digitsVal fp, fp.length), r3)
  | _ => if ip.isEmpty then none else some ((digitsVal ip, 0), r1)

/-- Optional exponent part `(e|E) sign? digits` of a Python float literal. -/
def parseExponent (cs : List Char) : Option (Int × List Char) :=
  match cs with
  | 'e' :: r | 'E' :: r =>
    let (neg, r2) := stripSign r
    let ds := r2.takeWhile Char.isDigit
    let r3 := r2.dropWhile Char.isDigit
    if ds.isEmpty then none
    else some ((if neg then -(digitsVal ds : Int) else (digitsVal ds : Int)), r3)
  | _ => some (0, cs)

/-- Models Python `float(s)` on plain decimal literals with optional sign and
exponent.  (`inf`/`nan`/whitespace/underscore forms are outside the model.)
`none` models the raised `ValueError`. -/
def float_of_string (s : String) : Option ℚ :=
  let (neg, r0) := stripSign s.data
  match parseMantissa r0 with
  | none => none
  | some ((n, scale), r1) =>
    match parseExponent r1 with
    | none => none
    | some (e, r2) =>
      if r2.isEmpty then
        let num : Int := if neg then -(n : Int) else (n : Int)
        if 0 ≤ e then some (mkRat (num * ((10 ^ e.toNat : Nat) : Int)) (10 ^ scale))
        else some (mkRat num (10 ^ scale * 10 ^ (-e).toNat))
      else none

/-- Models Python `points_text.replace(",", "")`. -/
def stripCommas (s : String) : String :=
  ⟨s.data.filter (fun c => c ≠ ',')⟩

/-- Models Python `s.lower()` (ASCII case mapping). -/
def pyLower (s : String) : String := ⟨s.data.map Char.toLower⟩

/-- Models Python `s.upper()` (ASCII case mapping). -/
def pyUpper (s : String) : String := ⟨s.data.map Char.toUpper⟩

/-- Models Python `s.strip()` (and BeautifulSoup `get_text(strip=True)`):
drop leading and trailing whitespace. -/
def pyStrip (s : String) : String :=
  ⟨((s.data.dropWhile Char.isWhitespace).reverse.dropWhile Char.isWhitespace).reverse⟩

/-- A JSON scalar, as needed to model the IOF `points` field: number or string. -/
inductive PyVal where
  | num (q : ℚ)
  | str (s : String)
  deriving DecidableEq

/-- Python truthiness of the modelled scalars: `0`, `0.0` and `""` are falsy. -/
def PyVal.truthy : PyVal → Bool
  | .num q => q ≠ 0
  | .str s => s ≠ ""

/-- Python `float(v)` on a modelled scalar: a number passes through, a string
is parsed; `none` models the raised `ValueError`. -/
def PyVal.toFloat : PyVal → Option ℚ
  | .num q => some q
  | .str s => float_of_string s

/-- The fields of one IOF JSON response entry that `fetch_iof` reads.  `none`
models an absent key or JSON `null`. -/
structure IofEntry where
  pos : Option Int
  wrsPosition : Option Int
  firstName : Option String
  lastName : Option String
  country : Option String
  points : Option PyVal
  iofid : Option Int
  personId : Option Int
  deriving DecidableEq

/-- Python truthiness of an optional integer field: `None` and `0` are falsy. -/
def intTruthy : Option Int → Option Int
  | some x => if x = 0 then none else some x
  | none => none

/-- Models the Python expression `a or b or 0` on optional integer fields:
the first truthy value, else `0`. -/
def orInt (a b : Option Int) : Int :=
  match intTruthy a with
  | some x => x
  | none =>
    match intTruthy b with
    | some y => y
    | none => 0

/-- Models `entry.get(k, "") or ""`: a missing field becomes `""`. -/
def strOrEmpty (a : Option String) : String := a.getD ""

/-- Models `float(entry.get("points") or 0)`: a missing or falsy points value
is replaced by `0` before coercion; a truthy non-numeric string makes the
coercion fail (`none`), and `fetch_iof` has no handler for that failure. -/
def iofPoints : Option PyVal → Option ℚ
  | none => some 0
  | some v => if v.truthy then v.toFloat else some 0

/-- One normalized athlete record as built by `fetch_iof`. -/
structure IofAthlete where
  rank : Int
  name : String
  nameJa : String
  club : String
  country : String
  points : ℚ
  iofId : Int
  deriving DecidableEq

/-- The per-entry mapping in the body of `fetch_iof`'s loop; `none` models an
exception escaping `fetch_iof` (only the points coercion can raise here). -/
def iofMapEntry (e : IofEntry) : Option IofAthlete :=
  match iofPoints e.points with
  | none => none
  | some p =>
    some {
      rank := orInt e.pos e.wrsPosition
      name := pyStrip ((strOrEmpty e.lastName) ++ " " ++ (strOrEmpty e.firstName))
      nameJa := ""
      club := ""
      country := pyUpper (strOrEmpty e.country)
      points := p
      iofId := orInt e.iofid e.personId }

/-- The sort key `lambda a: a["rank"] or 99999` used by `fetch_iof`. -/
def iofSortKey (a : IofAthlete) : Int :=
  if a.rank = 0 then 99999 else a.rank

/-- The ordering `athletes.sort(key=...)` sorts by. -/
def iofLe (a b : IofAthlete) : Prop := iofSortKey a ≤ iofSortKey b

instance : DecidableRel iofLe := fun a b => inferInstanceAs (Decidable (iofSortKey a ≤ iofSortKey b))

instance : IsTotal IofAthlete iofLe := ⟨fun x y => Int.le_total (iofSortKey x) (iofSortKey y)⟩

instance : IsTrans IofAthlete iofLe := ⟨fun _ _ _ h1 h2 => le_trans h1 h2⟩

/-- The athlete list built and sorted by `fetch_iof` from the decoded JSON
entries; `none` models an exception escaping the mapping loop. -/
def fetch_iof_athletes (entries : List IofEntry) : Option (List IofAthlete) :=
  (entries.mapM iofMapEntry).map (List.insertionSort iofLe)

def IOF_API_BASE : String := "https://ranking.orienteering.org/api/wrs"

def IOF_DISCIPLINE_MAP : List (String × String) := [("foot", "F"), ("sprint", "FS")]

def IOF_GROUP_MAP : List (String × String) := [("M", "MEN"), ("W", "WOMEN")]

/-- The kinds of exception `fetch_iof` can raise. -/
inductive PyErr where
  | keyError
  | httpError
  | valueError
  deriving DecidableEq

/-- `fetch_iof`, instrumented with the list of URLs actually requested.  The
HTTP layer is an oracle from URL to decoded JSON body (`Except.error` models a
connection failure, a non-2xx status or a JSON decode failure). -/
def fetch_iof (http : String → Except Unit (List IofEntry)) (discipline gender : String) :
    Except PyErr (List IofAthlete) × List String :=
  match IOF_DISCIPLINE_MAP.lookup discipline with
  | none => (.error .keyError, [])
  | some disc_code =>
    match IOF_GROUP_MAP.lookup gender with
    | none => (.error .keyError, [])
    | some group_code =>
      let url := IOF_API_BASE ++ "/" ++ disc_code ++ "?group=" ++ group_code
      match http url with
      | .error _ => (.error .httpError, [url])
      | .ok entries =>
        match fetch_iof_athletes entries with
        | none => (.error .valueError, [url])
        | some athletes => (.ok athletes, [url])

def JOA_BASE : String := "https://japan-o-entry.com/ranking/ranking/ranking_index"

def JOA_CATEGORIES : List ((String × String) × (Nat × Nat)) :=
  [(("foot", "M"), (5, 39)), (("foot", "W"), (5, 46)),
   (("sprint", "M"), (17, 85)), (("sprint", "W"), (17, 86))]

/-- One normalized athlete record as built by `fetch_joa_page`. -/
structure JoaAthlete where
  rank : Int
  name : String
  nameJa : String
  club : String
  points : ℚ
  deriving DecidableEq

/-- The body of the row loop in `fetch_joa_page`.  A row is the list of its
`<td>` cell texts; `get_text(strip=True)` is modelled by `pyStrip`.
`none` models `continue` (fewer than 4 columns) or a name empty after
trimming; coercion failures fall back to `0` / `0.0` inside the row. -/
def parseJoaRow (cols : List String) : Option JoaAthlete :=
  if cols.length < 4 then none
  else
    let rank_text := pyStrip (cols.getD 0 "")
    let name := pyStrip (cols.getD 1 "")
    let club := pyStrip (cols.getD 2 "")
    let points_text := pyStrip (cols.getD 3 "")
    let rank := (int_of_string rank_text).getD 0
    let points := (float_of_string (stripCommas points_text)).getD 0
    if name ≠ "" then
      some { rank := rank, name := name, nameJa := name, club := club, points := points }
    else none

/-- The parts of one fetched JOA HTML page that `fetch_joa_page` inspects:
whether a `table` with class `ranking_table` is present, the `<td>` cell texts
of the table's rows, and the `href` of every anchor on the page. -/
structure JoaPage where
  hasTable : Bool
  rows : List (List String)
  hrefs : List String

/-- Python `href.endswith(next_suffix)`, as a suffix test on character lists. -/
def pyEndsWith (s tail : String) : Bool := tail.data.isSuffixOf s.data

/-- `fetch_joa_page` over a page oracle (page number ↦ fetched, parsed HTML):
returns the athletes parsed from the ranking table and the has-next flag
(whether some anchor's href ends with the next page's URL suffix). -/
def fetch_joa_page (pg : Nat → JoaPage) (category subcategory page : Nat) :
    List JoaAthlete × Bool :=
  let p := pg page
  if p.hasTable = false then ([], false)
  else
    let athletes := p.rows.filterMap parseJoaRow
    let next_suffix :=
      "/" ++ toString category ++ "/" ++ toString subcategory ++ "/" ++ toString (page + 1)
    let has_next := p.hrefs.any (fun h => pyEndsWith h next_suffix)
    (athletes, has_next)

/-- `fetch_joa`'s `while page <= 50` loop, fuelled; returns the accumulated
athletes and the list of page numbers fetched, in order.  `fetch_joa` starts
it with fuel 51 ≥ the number of loop iterations possible, so the fuel never
runs out. -/
def joaLoop (pg : Nat → JoaPage) (category subcategory : Nat) :
    Nat → Nat → List JoaAthlete × List Nat
  | 0, _ => ([], [])
  | fuel + 1, page =>
    let ap := fetch_joa_page pg category subcategory page
    if ap.2 = false ∨ ap.1 = [] then (ap.1, [page])
    else if page < 50 then
      let rec2 := joaLoop pg category subcategory fuel (page + 1)
      (ap.1 ++ rec2.1, page :: rec2.2)
    else (ap.1, [page])

/-- The page loop of `fetch_joa` for one category pair: athletes concatenated
in fetch order, plus the pages fetched. -/
def fetch_joa_pages (pg : Nat → JoaPage) (category subcategory : Nat) :
    List JoaAthlete × List Nat :=
  joaLoop pg category subcategory 51 0

/-- `fetch_joa`: `none` models the early `return None` for a (discipline,
gender) pair absent from `JOA_CATEGORIES`. -/
def fetch_joa (pg : Nat → JoaPage) (discipline gender : String) :
    Option (List JoaAthlete) :=
  match JOA_CATEGORIES.lookup (discipline, gender) with
  | none => none
  | some (category, subcategory) => some (fetch_joa_pages pg category subcategory).1

/-- The stop condition of `fetch_joa`'s loop body at a page: the page yields
zero (parsed) rows, or no anchor on it links to the next page. -/
def joaStop (pg : Nat → JoaPage) (category subcategory page : Nat) : Prop :=
  (fetch_joa_page pg category subcategory page).2 = false ∨
    (fetch_joa_page pg category subcategory page).1 = []

instance (pg : Nat → JoaPage) (category subcategory page : Nat) :
    Decidable (joaStop pg category subcategory page) := by
  unfold joaStop; infer_instance

/-- The per-run outcome oracle `main` runs against: for each (discipline,
gender) combination, the result of the IOF fetch (athlete count on success;
`Except.error` when `fetch_iof` raised), whether the IOF snapshot file write
succeeded, the JOA fetch result (`some (date, count)` on success, with the
snapshot's own date used in its file name; `Except.ok none` modelling
`fetch_joa` returning `None`), and whether the JOA snapshot write succeeded. -/
structure World where
  iof : String → String → Except Unit Nat
  iofWriteOk : String → String → Bool
  joa : String → String → Except Unit (Option (String × Nat))
  joaWriteOk : String → String → Bool

/-- An index reference to one written snapshot file. -/
structure FileRef where
  file : String
  count : Nat
  deriving DecidableEq

/-- One date's entry in the index: the `updatedAt` timestamp plus the
per-combination references, in insertion order. -/
structure DateEntry where
  updatedAt : String
  combos : List (String × FileRef)
  deriving DecidableEq

/-- The persisted index: `latestDate` plus the date → entry mapping, as an
insertion-ordered association list (modelling the JSON object). -/
structure Index where
  latestDate : String
  dates : List (String × DateEntry)
  deriving DecidableEq

def iofKey (discipline g : String) : String := "iof_" ++ discipline ++ "_" ++ g

def joaKey (discipline g : String) : String := "joa_" ++ discipline ++ "_" ++ g

def iofFileName (discipline g today : String) : String :=
  iofKey discipline g ++ "_" ++ today ++ ".json"

def joaFileName (discipline g jdate : String) : String :=
  joaKey discipline g ++ "_" ++ jdate ++ ".json"

/-- The `date_entry` key contributed by one combination's IOF try block: one
key when the fetch and the snapshot write both succeed, nothing when an
exception was caught. -/
def comboIof (w : World) (today discipline gender : String) : List (String × FileRef) :=
  match w.iof discipline gender, w.iofWriteOk discipline gender with
  | .ok n, true =>
    [(iofKey discipline (pyLower gender), ⟨iofFileName discipline (pyLower gender) today, n⟩)]
  | _, _ => []

/-- The `date_entry` key contributed by one combination's JOA try block: one
key when the fetch and the snapshot write both succeed (the snapshot's own
date is used in the file name), nothing when an exception was caught or
`fetch_joa` returned `None`. -/
def comboJoa (w : World) (discipline gender : String) : List (String × FileRef) :=
  match w.joa discipline gender, w.joaWriteOk discipline gender with
  | .ok (some (jdate, n)), true =>
    [(joaKey discipline (pyLower gender), ⟨joaFileName discipline (pyLower gender) jdate, n⟩)]
  | _, _ => []

/-- The `date_entry` keys contributed by one (discipline, gender) iteration of
`main`'s loop, in insertion order: the IOF try block, then the JOA try block. -/
def comboPair (w : World) (today discipline gender : String) : List (String × FileRef) :=
  comboIof w today discipline gender ++ comboJoa w discipline gender

def DISCIPLINES : List String := ["foot", "sprint"]

def GENDERS : List String := ["M", "W"]

/-- All `date_entry` combination keys for one run, in `main`'s loop order. -/
def comboEntries (w : World) (today : String) : List (String × FileRef) :=
  DISCIPLINES.flatMap (fun d => GENDERS.flatMap (fun g => comboPair w today d g))

/-- Python `dict[key] = value` on an insertion-ordered association list:
replace the first occurrence in place, else append. -/
def dictInsert : List (String × DateEntry) → String → DateEntry → List (String × DateEntry)
  | [], k, v => [(k, v)]
  | (k', v') :: rest, k, v =>
    if k' = k then (k, v) :: rest else (k', v') :: dictInsert rest k v

/-- The observable result of one run of `main`: the index structures written
to `index.json` and to `latest.json`. -/
structure MainOut where
  indexFile : Index
  latestFile : Index
  deriving DecidableEq

/-- `main` over the fetch/write outcome oracle: every combination is attempted
inside its own try/except, today's entry is assembled from the successes, the
index's `latestDate` and today's entry are set, and the same index object is
serialized to both `index.json` and `latest.json`.  Totality of this function
models the absence of any top-level failure mode. -/
def main (w : World) (index0 : Index) (today now : String) : MainOut :=
  let date_entry : DateEntry := ⟨now, comboEntries w today⟩
  let index : Index := ⟨today, dictInsert index0.dates today date_entry⟩
  ⟨index, index⟩

/-! ### Helper lemmas -/

theorem filter_idem {α : Type} (p : α → Bool) (l : List α) :
    (l.filter p).filter p = l.filter p := by
  simp [List.filter_filter]

theorem stripCommas_idem (s : String) : stripCommas (stripCommas s) = stripCommas s := by
  unfold stripCommas
  exact congrArg String.mk (filter_idem _ s.data)

/-- The complete points pipeline applied by `fetch_joa_page` to a points cell:
strip comma separators, coerce to float, default to `0.0` on failure. -/
def joa_points (s : String) : ℚ := (float_of_string (stripCommas s)).getD 0

/-! ### C5 — JOA row inclusion -/

/-- C5: a JOA table row contributes an athlete record if and only if it has at
least 4 columns and its name column is non-empty after trimming. -/
theorem joa_row_included_iff (cols : List String) :
    (parseJoaRow cols).isSome = true ↔
      4 ≤ cols.length ∧ pyStrip (cols.getD 1 "") ≠ "" := by
  unfold parseJoaRow
  simp only [List.getD]
  by_cases h4 : cols.length < 4
  · have h4' : ¬ 4 ≤ cols.length := by omega
    simp [h4, h4']
  · have h4' : 4 ≤ cols.length := by omega
    by_cases hn : pyStrip (cols[1]?.getD "") = ""
    · simp [h4, hn]
    · simp [h4, h4', hn]

/-! ### C6 — JOA points parsing -/

/-- C6: points parsing strips comma thousands separators before float
coercion, so a points string parses to the same value as the same string with
separators removed; any string whose comma-stripped form is not a valid float
parses to `0.0`.  Concretely, `"1,234.5"` and `"1234.5"` both parse to
`1234.5`. -/
theorem joa_points_comma_normalization (s : String) :
    joa_points s = joa_points (stripCommas s) ∧
    (float_of_string (stripCommas s) = none → joa_points s = 0) ∧
    joa_points "1,234.5" = mkRat 12345 10 ∧ joa_points "1234.5" = mkRat 12345 10 := by
  refine ⟨?_, ?_, by decide, by decide⟩
  · unfold joa_points
    rw [stripCommas_idem]
  · intro h
    unfold joa_points
    rw [h]
    rfl

/-- Witness for C6 at a concrete non-numeric input. -/
theorem joa_points_comma_normalization_witness :
    float_of_string (stripCommas "N/A") = none ∧ joa_points "N/A" = 0 :=
  ⟨by decide, (joa_points_comma_normalization "N/A").2.1 (by decide)⟩

/-! ### C7 — coercion-failure policy (corrected) -/

/-- Counterexample to C7 as stated: `fetch_iof` does not absorb a coercion
failure on a non-numeric points string; the mapping loop fails (the
`ValueError` from `float` propagates out of `fetch_iof`) instead of returning
a record with points defaulted. -/
theorem iof_nonnumeric_points_raises :
    fetch_iof_athletes [⟨none, none, none, none, none, some (.str "N/A"), none, none⟩] =
      none := by decide

/-- C7 (amended): the JOA row parser silently absorbs rank and points coercion
failures with defaults `0` / `0.0`; `fetch_iof` defaults only a missing or
falsy points value to `0.0`, while a truthy non-numeric points string makes
the mapping raise (propagating out of `fetch_iof`). -/
theorem coercion_failure_policy :
    (∀ cols a, parseJoaRow cols = some a →
      (int_of_string (pyStrip (cols.getD 0 "")) = none → a.rank = 0) ∧
      (float_of_string (stripCommas (pyStrip (cols.getD 3 ""))) = none → a.points = 0)) ∧
    (∀ e : IofEntry, e.points = none → iofMapEntry e ≠ none) ∧
    (∀ (e : IofEntry) (s : String), e.points = some (.str s) → s ≠ "" →
      float_of_string s = none → iofMapEntry e = none) := by
  refine ⟨?_, ?_, ?_⟩
  · intro cols a h
    unfold parseJoaRow at h
    simp only [List.getD, List.get?_eq_getElem?] at h ⊢
    by_cases h4 : cols.length < 4
    · simp [h4] at h
    · rw [if_neg h4] at h
      by_cases hn : pyStrip (cols[1]?.getD "") = ""
      · simp [hn] at h
      · rw [if_pos hn] at h
        injection h with h
        subst h
        constructor
        · intro hr
          simp [hr]
        · intro hp
          simp [hp]
  · intro e he
    unfold iofMapEntry iofPoints
    rw [he]
    simp
  · intro e s he hs hparse
    unfold iofMapEntry iofPoints
    rw [he]
    simp [PyVal.truthy, PyVal.toFloat, hs, hparse]

/-- Witness for C7 at concrete inputs: a JOA row with non-numeric rank and
points cells is kept with both defaulted, and a non-empty non-numeric IOF
points string makes the mapping fail. -/
theorem coercion_failure_policy_witness :
    (parseJoaRow ["abc", "x", "c", "zz"] = some ⟨0, "x", "x", "c", 0⟩) ∧
    (⟨0, "x", "x", "c", 0⟩ : JoaAthlete).rank = 0 ∧
    (⟨0, "x", "x", "c", 0⟩ : JoaAthlete).points = 0 ∧
    iofMapEntry ⟨none, none, none, none, none, some (.str "N/A"), none, none⟩ = none :=
  ⟨by decide,
   (coercion_failure_policy.1 ["abc", "x", "c", "zz"] _ (by decide)).1 (by decide),
   (coercion_failure_policy.1 ["abc", "x", "c", "zz"] _ (by decide)).2 (by decide),
   coercion_failure_policy.2.2 _ "N/A" rfl (by decide) (by decide)⟩

/-! ### C4 — IOF field mapping (corrected: Python truthiness, not null-ness) -/

/-- The claim's literal reading of the rank / iofId rule: the first non-NULL
of the two fields, else 0 (null-ness only, ignoring Python truthiness). -/
def firstNonNull (a b : Option Int) : Int := (a.orElse (fun _ => b)).getD 0

/-- Counterexample to C4 as stated: for an entry with `pos = 0` and
`wrsPosition = 5`, the code's `or` chain skips the falsy `0` and yields rank
5, while "first non-null of pos and wrsPosition, else 0" yields 0. -/
theorem iof_rank_truthiness_counterexample :
    (iofMapEntry ⟨some 0, some 5, none, none, none, none, none, none⟩).map IofAthlete.rank =
      some 5 ∧
    firstNonNull (some 0) (some 5) = 0 := by decide

theorem orInt_fst (p : Int) (b : Option Int) (hp : p ≠ 0) : orInt (some p) b = p := by
  simp [orInt, intTruthy, hp]

theorem orInt_snd (a : Option Int) (v : Int) (ha : intTruthy a = none) (hv : v ≠ 0) :
    orInt a (some v) = v := by
  unfold orInt
  rw [ha]
  simp [intTruthy, hv]

theorem orInt_default (a b : Option Int) (ha : intTruthy a = none) (hb : intTruthy b = none) :
    orInt a b = 0 := by
  simp [orInt, ha, hb]

/-- What each field of a successfully mapped IOF entry equals. -/
theorem iofMapEntry_fields (e : IofEntry) (a : IofAthlete) (h : iofMapEntry e = some a) :
    a.rank = orInt e.pos e.wrsPosition ∧
    a.name = pyStrip (strOrEmpty e.lastName ++ " " ++ strOrEmpty e.firstName) ∧
    a.country = pyUpper (strOrEmpty e.country) ∧
    a.iofId = orInt e.iofid e.personId := by
  unfold iofMapEntry at h
  cases hp : iofPoints e.points with
  | none => rw [hp] at h; exact Option.noConfusion h
  | some p =>
    rw [hp] at h
    injection h with h
    subst h
    exact ⟨rfl, rfl, rfl, rfl⟩

/-- C4 (amended): rank is the first truthy (non-null and non-zero) of `pos`
and `wrsPosition`, else 0; name is "Last First" with surrounding whitespace
trimmed (missing fields as empty strings); country is the code upper-cased,
else empty; iofId is the first truthy of `iofid` and `personId`, else 0.
The claim's concrete scenario (Anna Svensson, points 450.2 = `mkRat 4502 10`)
holds as stated. -/
theorem iof_entry_mapping_amended :
    (∀ e a, iofMapEntry e = some a →
      (∀ p, e.pos = some p → p ≠ 0 → a.rank = p) ∧
      (intTruthy e.pos = none → ∀ v, e.wrsPosition = some v → v ≠ 0 → a.rank = v) ∧
      (intTruthy e.pos = none → intTruthy e.wrsPosition = none → a.rank = 0) ∧
      a.name = pyStrip (strOrEmpty e.lastName ++ " " ++ strOrEmpty e.firstName) ∧
      a.country = pyUpper (strOrEmpty e.country) ∧
      (∀ i, e.iofid = some i → i ≠ 0 → a.iofId = i) ∧
      (intTruthy e.iofid = none → ∀ j, e.personId = some j → j ≠ 0 → a.iofId = j) ∧
      (intTruthy e.iofid = none → intTruthy e.personId = none → a.iofId = 0)) ∧
    iofMapEntry ⟨some 1, none, some "Anna", some "Svensson", some "swe",
        some (.num (mkRat 4502 10)), some 1001, none⟩ =
      some ⟨1, "Svensson Anna", "", "", "SWE", mkRat 4502 10, 1001⟩ := by
  constructor
  · intro e a h
    obtain ⟨hr, hn, hc, hi⟩ := iofMapEntry_fields e a h
    refine ⟨?_, ?_, ?_, hn, hc, ?_, ?_, ?_⟩
    · intro p hp hp0
      rw [hr, hp]
      exact orInt_fst p _ hp0
    · intro hfalsy v hv hv0
      rw [hr, hv]
      exact orInt_snd _ v hfalsy hv0
    · intro h1 h2
      rw [hr]
      exact orInt_default _ _ h1 h2
    · intro i hi2 hi0
      rw [hi, hi2]
      exact orInt_fst i _ hi0
    · intro hfalsy j hj hj0
      rw [hi, hj]
      exact orInt_snd _ j hfalsy hj0
    · intro h1 h2
      rw [hi]
      exact orInt_default _ _ h1 h2
  · rfl

/-- Witness for C4 (amended) at the Anna Svensson entry. -/
theorem iof_entry_mapping_amended_witness :
    (⟨some 1, none, some "Anna", some "Svensson", some "swe", some (.num (mkRat 4502 10)),
        some 1001, none⟩ : IofEntry).pos = some 1 ∧
    (⟨1, "Svensson Anna", "", "", "SWE", mkRat 4502 10, 1001⟩ : IofAthlete).rank = 1 :=
  ⟨rfl, (iof_entry_mapping_amended.1 _ _ iof_entry_mapping_amended.2).1 1 rfl (by decide)⟩

/-! ### C2 — IOF result ordering (corrected: the 99999 sentinel) -/

/-- C2's claimed ordering: non-decreasing by rank among known ranks, with
every rank-0 athlete after every athlete with a known (non-zero) rank. -/
def iofOrderedClaim (l : List IofAthlete) : Prop :=
  l.Pairwise (fun a b =>
    (a.rank = 0 → b.rank = 0) ∧ (a.rank ≠ 0 → b.rank ≠ 0 → a.rank ≤ b.rank))

/-- Counterexample to C2 as stated: with one entry of rank 100000 and one of
unknown rank, the sentinel key `rank or 99999` orders the rank-0 athlete
before the rank-100000 one, so a rank-0 athlete is not ordered after every
known-rank athlete. -/
theorem iof_sort_sentinel_counterexample :
    fetch_iof_athletes
        [⟨some 100000, none, none, none, none, none, none, none⟩,
         ⟨none, none, none, none, none, none, none, none⟩] =
      some [⟨0, "", "", "", "", 0, 0⟩, ⟨100000, "", "", "", "", 0, 0⟩] ∧
    ¬ iofOrderedClaim [⟨0, "", "", "", "", 0, 0⟩, ⟨100000, "", "", "", "", 0, 0⟩] := by
  refine ⟨rfl, fun hcl => ?_⟩
  unfold iofOrderedClaim at hcl
  rw [List.pairwise_cons] at hcl
  have h0 := (hcl.1 _ (List.mem_singleton.mpr rfl)).1 rfl
  exact absurd h0 (by decide)

/-- C2 (amended): whenever every mapped rank is below the sentinel 99999, the
athlete list returned by `fetch_iof` is sorted non-decreasing by rank with
rank-0 (missing/falsy) entries ordered after every known rank. -/
theorem iof_sorted_amended (entries : List IofEntry) (l : List IofAthlete)
    (h : fetch_iof_athletes entries = some l) (hlt : ∀ a ∈ l, a.rank < 99999) :
    iofOrderedClaim l := by
  unfold fetch_iof_athletes at h
  cases hm : entries.mapM iofMapEntry with
  | none => rw [hm] at h; exact Option.noConfusion h
  | some m =>
    rw [hm] at h
    injection h with h
    subst h
    have hs := List.sorted_insertionSort iofLe m
    refine List.Pairwise.imp_of_mem (fun ha hb hr => ?_) hs
    constructor
    · intro ha0
      by_contra hb0
      have hblt := hlt _ hb
      unfold iofLe iofSortKey at hr
      rw [if_pos ha0, if_neg hb0] at hr
      omega
    · intro ha0 hb0
      unfold iofLe iofSortKey at hr
      rw [if_neg ha0, if_neg hb0] at hr
      exact hr

/-- Witness for C2 (amended) at a concrete response with ranks 2, 1 (from the
alternate field) and one unknown rank. -/
theorem iof_sorted_amended_witness :
    fetch_iof_athletes
        [⟨some 2, none, none, none, none, none, none, none⟩,
         ⟨none, some 1, none, none, none, none, none, none⟩,
         ⟨none, none, none, none, none, none, none, none⟩] =
      some [⟨1, "", "", "", "", 0, 0⟩, ⟨2, "", "", "", "", 0, 0⟩, ⟨0, "", "", "", "", 0, 0⟩] ∧
    iofOrderedClaim
      [⟨1, "", "", "", "", 0, 0⟩, ⟨2, "", "", "", "", 0, 0⟩, ⟨0, "", "", "", "", 0, 0⟩] :=
  ⟨rfl,
   iof_sorted_amended
     [⟨some 2, none, none, none, none, none, none, none⟩,
      ⟨none, some 1, none, none, none, none, none, none⟩,
      ⟨none, none, none, none, none, none, none, none⟩]
     [⟨1, "", "", "", "", 0, 0⟩, ⟨2, "", "", "", "", 0, 0⟩, ⟨0, "", "", "", "", 0, 0⟩]
     rfl (by decide)⟩

/-! ### C3 — JOA pagination termination and stop conditions -/

theorem pyEndsWith_self (s : String) : pyEndsWith s s = true := by
  simp [pyEndsWith, List.isSuffixOf_iff_suffix]

/-- Full characterization of `fetch_joa`'s loop from any start page: it
fetches a contiguous block of pages ending at the first page that stops
(no next link or zero rows) or at page 50, whichever comes first. -/
theorem joaLoop_spec (pg : Nat → JoaPage) (category subcategory : Nat) :
    ∀ fuel page, page + fuel = 51 → page ≤ 50 →
      ∃ r, page ≤ r ∧ r ≤ 50 ∧
        (joaLoop pg category subcategory fuel page).2 = List.range' page (r + 1 - page) ∧
        (∀ q, page ≤ q → q < r → ¬ joaStop pg category subcategory q) ∧
        (joaStop pg category subcategory r ∨ r = 50) := by
  intro fuel
  induction fuel with
  | zero =>
    intro page h1 h2
    omega
  | succ f ih =>
    intro page h1 h2
    rcases hfp : fetch_joa_page pg category subcategory page with ⟨aths, hn⟩
    have hstopdef : joaStop pg category subcategory page ↔ (hn = false ∨ aths = []) := by
      unfold joaStop
      rw [hfp]
    by_cases hstop : hn = false ∨ aths = []
    · have hloop : joaLoop pg category subcategory (f + 1) page = (aths, [page]) := by
        simp [joaLoop, hfp, hstop]
      refine ⟨page, le_refl _, h2, ?_, ?_, Or.inl (hstopdef.mpr hstop)⟩
      · rw [hloop, show page + 1 - page = 1 from by omega, List.range'_one]
      · intro q hq1 hq2
        omega
    · by_cases hpage : page < 50
      · obtain ⟨r, hr1, hr2, hr3, hr4, hr5⟩ := ih (page + 1) (by omega) (by omega)
        rcases hrec : joaLoop pg category subcategory f (page + 1) with ⟨rest, pages⟩
        rw [hrec] at hr3
        have hloop : joaLoop pg category subcategory (f + 1) page =
            (aths ++ rest, page :: pages) := by
          simp [joaLoop, hfp, hstop, hpage, hrec]
        refine ⟨r, by omega, hr2, ?_, ?_, hr5⟩
        · rw [hloop]
          show page :: pages = List.range' page (r + 1 - page)
          rw [show pages = List.range' (page + 1) (r + 1 - (page + 1)) from hr3,
            show r + 1 - page = (r + 1 - (page + 1)) + 1 from by omega,
            List.range'_succ]
        · intro q hq1 hq2
          by_cases hqp : q = page
          · subst hqp
            exact fun hc => hstop (hstopdef.mp hc)
          · exact hr4 q (by omega) hq2
      · have hp50 : page = 50 := by omega
        have hloop : joaLoop pg category subcategory (f + 1) page = (aths, [page]) := by
          simp [joaLoop, hfp, hstop, hpage]
        refine ⟨page, le_refl _, h2, ?_, ?_, Or.inr hp50⟩
        · rw [hloop, show page + 1 - page = 1 from by omega, List.range'_one]
        · intro q hq1 hq2
          omega

/-- C3: `fetch_joa`'s page loop terminates, fetching exactly the contiguous
block of pages 0..p where p is the first page that yields zero rows or has no
next-page link, capped at page 50; in particular, when no page up to 50
stops, exactly pages 0..50 are fetched (pagination halts at page 50 even
though every page still has a next-page link). -/
theorem fetch_joa_pagination (pg : Nat → JoaPage) (category subcategory : Nat) :
    (∃ p, p ≤ 50 ∧
      (fetch_joa_pages pg category subcategory).2 = List.range (p + 1) ∧
      (∀ q, q < p → ¬ joaStop pg category subcategory q) ∧
      (joaStop pg category subcategory p ∨ p = 50)) ∧
    ((∀ q, q ≤ 50 → ¬ joaStop pg category subcategory q) →
      (fetch_joa_pages pg category subcategory).2 = List.range 51) := by
  obtain ⟨r, _, hr2, hr3, hr4, hr5⟩ := joaLoop_spec pg category subcategory 51 0 rfl (by omega)
  have hmain : (fetch_joa_pages pg category subcategory).2 = List.range (r + 1) := by
    unfold fetch_joa_pages
    rw [hr3, List.range_eq_range', Nat.sub_zero]
  constructor
  · exact ⟨r, hr2, hmain, fun q hq => hr4 q (Nat.zero_le q) hq, hr5⟩
  · intro hall
    have hr50 : r = 50 := by
      rcases hr5 with h | h
      · exact absurd h (hall r hr2)
      · exact h
    rw [hmain, hr50]

/-- A page oracle on which every page has one valid row and a link to the
next page: pagination can only stop at the cap. -/
def joaAllNextPages : Nat → JoaPage := fun page =>
  ⟨true, [["1", "x", "c", "1"]],
   ["/" ++ toString 5 ++ "/" ++ toString 39 ++ "/" ++ toString (page + 1)]⟩

/-- Witness for C3: on the always-has-next oracle no page stops, and the loop
fetches exactly pages 0..50. -/
theorem fetch_joa_pagination_witness :
    (∀ q, q ≤ 50 → ¬ joaStop joaAllNextPages 5 39 q) ∧
    (fetch_joa_pages joaAllNextPages 5 39).2 = List.range 51 := by
  have hsnd : ∀ q, (fetch_joa_page joaAllNextPages 5 39 q).2 = true := by
    intro q
    unfold fetch_joa_page joaAllNextPages
    simp [pyEndsWith_self]
  have hfst : ∀ q, (fetch_joa_page joaAllNextPages 5 39 q).1 =
      [⟨1, "x", "x", "c", mkRat 1 1⟩] := fun _ => rfl
  have hnostop : ∀ q, ¬ joaStop joaAllNextPages 5 39 q := by
    intro q hstop
    unfold joaStop at hstop
    rw [hsnd, hfst] at hstop
    simp at hstop
  exact ⟨fun q _ => hnostop q,
    (fetch_joa_pagination joaAllNextPages 5 39).2 (fun q _ => hnostop q)⟩

/-! ### Association-list helper lemmas for the index model -/

theorem lookup_append_left {β : Type} {k : String} {v : β} {l1 l2 : List (String × β)}
    (h : List.lookup k l1 = some v) : List.lookup k (l1 ++ l2) = some v := by
  induction l1 with
  | nil => simp at h
  | cons p t ih =>
    rcases p with ⟨k', v'⟩
    rw [List.lookup_cons] at h
    rw [List.cons_append, List.lookup_cons]
    cases hb : k == k' with
    | true => rw [hb] at h; exact h
    | false => rw [hb] at h; exact ih h

theorem lookup_append_right {β : Type} {k : String} {l1 l2 : List (String × β)}
    (h : List.lookup k l1 = none) : List.lookup k (l1 ++ l2) = List.lookup k l2 := by
  induction l1 with
  | nil => rfl
  | cons p t ih =>
    rcases p with ⟨k', v'⟩
    rw [List.lookup_cons] at h
    rw [List.cons_append, List.lookup_cons]
    cases hb : k == k' with
    | true => rw [hb] at h; exact Option.noConfusion h
    | false => rw [hb] at h; exact ih h

theorem dictInsert_lookup_self (l : List (String × DateEntry)) (k : String) (v : DateEntry) :
    List.lookup k (dictInsert l k v) = some v := by
  induction l with
  | nil => simp [dictInsert, List.lookup_cons]
  | cons p t ih =>
    rcases p with ⟨k', v'⟩
    by_cases hk : k' = k
    · subst hk
      simp [dictInsert, List.lookup_cons]
    · have hbk : (k == k') = false := beq_eq_false_iff_ne.mpr (fun h => hk h.symm)
      simp [dictInsert, hk, List.lookup_cons, hbk, ih]

theorem dictInsert_lookup_ne (l : List (String × DateEntry)) (k k2 : String) (v : DateEntry)
    (h : k2 ≠ k) : List.lookup k2 (dictInsert l k v) = List.lookup k2 l := by
  induction l with
  | nil => simp [dictInsert, List.lookup_cons, beq_eq_false_iff_ne.mpr h]
  | cons p t ih =>
    rcases p with ⟨k', v'⟩
    by_cases hk : k' = k
    · subst hk
      simp [dictInsert, List.lookup_cons, beq_eq_false_iff_ne.mpr h]
    · cases hb : k2 == k' <;> simp [dictInsert, hk, List.lookup_cons, hb, ih]

theorem dictInsert_keys (l : List (String × DateEntry)) (k : String) (v : DateEntry) :
    (dictInsert l k v).map Prod.fst =
      if k ∈ l.map Prod.fst then l.map Prod.fst else l.map Prod.fst ++ [k] := by
  induction l with
  | nil => simp [dictInsert]
  | cons p t ih =>
    rcases p with ⟨k', v'⟩
    by_cases hk : k' = k
    · subst hk
      simp [dictInsert]
    · have hk2 : ¬ k = k' := fun h => hk h.symm
      by_cases hm : k ∈ t.map Prod.fst
      · simp [dictInsert, hk, ih, hm, hk2]
      · simp [dictInsert, hk, ih, hm, hk2]

theorem dictInsert_keys_nodup (l : List (String × DateEntry)) (k : String) (v : DateEntry)
    (h : (l.map Prod.fst).Nodup) : ((dictInsert l k v).map Prod.fst).Nodup := by
  rw [dictInsert_keys]
  by_cases hm : k ∈ l.map Prod.fst
  · simp [hm, h]
  · simp [hm, List.nodup_append, h]

/-! ### Per-combination index lemmas -/

theorem comboIof_eq_of_ok (w : World) (today d g : String) (n : Nat)
    (hio : w.iof d g = .ok n) (hw : w.iofWriteOk d g = true) :
    comboIof w today d g =
      [(iofKey d (pyLower g), ⟨iofFileName d (pyLower g) today, n⟩)] := by
  unfold comboIof
  rw [hio, hw]

theorem comboIof_eq_nil_of_err (w : World) (today d g : String)
    (hio : w.iof d g = .error ()) : comboIof w today d g = [] := by
  cases hw : w.iofWriteOk d g <;> simp [comboIof, hio, hw]

theorem comboJoa_eq_of_ok (w : World) (d g jdate : String) (n : Nat)
    (hjo : w.joa d g = .ok (some (jdate, n))) (hw : w.joaWriteOk d g = true) :
    comboJoa w d g =
      [(joaKey d (pyLower g), ⟨joaFileName d (pyLower g) jdate, n⟩)] := by
  unfold comboJoa
  rw [hjo, hw]

theorem comboJoa_eq_nil_of_err (w : World) (d g : String)
    (hjo : w.joa d g = .error ()) : comboJoa w d g = [] := by
  cases hw : w.joaWriteOk d g <;> simp [comboJoa, hjo, hw]

theorem comboIof_lookup_ne (w : World) (today d g k : String)
    (hk : k ≠ iofKey d (pyLower g)) : List.lookup k (comboIof w today d g) = none := by
  cases hio : w.iof d g with
  | error e => cases hw : w.iofWriteOk d g <;> simp [comboIof, hio, hw]
  | ok n =>
    cases hw : w.iofWriteOk d g <;>
      simp [comboIof, hio, hw, List.lookup_cons, beq_eq_false_iff_ne.mpr hk]

theorem comboJoa_lookup_ne (w : World) (d g k : String)
    (hk : k ≠ joaKey d (pyLower g)) : List.lookup k (comboJoa w d g) = none := by
  cases hjo : w.joa d g with
  | error e => cases hw : w.joaWriteOk d g <;> simp [comboJoa, hjo, hw]
  | ok o =>
    cases o with
    | none => cases hw : w.joaWriteOk d g <;> simp [comboJoa, hjo, hw]
    | some p =>
      rcases p with ⟨jdate, n⟩
      cases hw : w.joaWriteOk d g <;>
        simp [comboJoa, hjo, hw, List.lookup_cons, beq_eq_false_iff_ne.mpr hk]

theorem comboPair_lookup_ne (w : World) (today d g k : String)
    (h1 : k ≠ iofKey d (pyLower g)) (h2 : k ≠ joaKey d (pyLower g)) :
    List.lookup k (comboPair w today d g) = none := by
  unfold comboPair
  rw [lookup_append_right (comboIof_lookup_ne w today d g k h1)]
  exact comboJoa_lookup_ne w d g k h2

theorem comboPair_lookup_iof (w : World) (today d g : String) (n : Nat)
    (hio : w.iof d g = .ok n) (hw : w.iofWriteOk d g = true) :
    List.lookup (iofKey d (pyLower g)) (comboPair w today d g) =
      some ⟨iofFileName d (pyLower g) today, n⟩ := by
  unfold comboPair
  apply lookup_append_left
  rw [comboIof_eq_of_ok w today d g n hio hw]
  simp [List.lookup_cons]

theorem comboPair_lookup_joa (w : World) (today d g jdate : String) (n : Nat)
    (hjo : w.joa d g = .ok (some (jdate, n))) (hw : w.joaWriteOk d g = true)
    (hne : joaKey d (pyLower g) ≠ iofKey d (pyLower g)) :
    List.lookup (joaKey d (pyLower g)) (comboPair w today d g) =
      some ⟨joaFileName d (pyLower g) jdate, n⟩ := by
  unfold comboPair
  rw [lookup_append_right (comboIof_lookup_ne w today d g _ hne)]
  rw [comboJoa_eq_of_ok w d g jdate n hjo hw]
  simp [List.lookup_cons]

/-- `comboEntries` unfolded over the concrete discipline/gender cross product,
in `main`'s loop order. -/
theorem comboEntries_eq (w : World) (today : String) :
    comboEntries w today =
      comboPair w today "foot" "M" ++ (comboPair w today "foot" "W" ++
        (comboPair w today "sprint" "M" ++ comboPair w today "sprint" "W")) := by
  simp [comboEntries, DISCIPLINES, GENDERS, List.append_assoc]

/-! ### C1 — per-combination isolation in `main` -/

/-- C1: an exception in one combination's fetch or write is contained there:
with the IOF (sprint, W) fetch failing, today's index entry is still written,
it omits the failed combination's key, and every other combination that
succeeds (IOF (foot, M), (foot, W), (sprint, M), and every JOA combination)
is recorded with its file reference and athlete count. -/
theorem main_combination_isolation (w : World) (index0 : Index) (today now : String)
    (hfail : w.iof "sprint" "W" = .error ()) :
    List.lookup today (main w index0 today now).indexFile.dates =
      some ⟨now, comboEntries w today⟩ ∧
    List.lookup (iofKey "sprint" (pyLower "W")) (comboEntries w today) = none ∧
    (∀ d g n, (d, g) ∈ [("foot", "M"), ("foot", "W"), ("sprint", "M")] →
      w.iof d g = .ok n → w.iofWriteOk d g = true →
      List.lookup (iofKey d (pyLower g)) (comboEntries w today) =
        some ⟨iofFileName d (pyLower g) today, n⟩) ∧
    (∀ d g jdate n,
      (d, g) ∈ [("foot", "M"), ("foot", "W"), ("sprint", "M"), ("sprint", "W")] →
      w.joa d g = .ok (some (jdate, n)) → w.joaWriteOk d g = true →
      List.lookup (joaKey d (pyLower g)) (comboEntries w today) =
        some ⟨joaFileName d (pyLower g) jdate, n⟩) := by
  refine ⟨?_, ?_, ?_, ?_⟩
  · show List.lookup today (dictInsert index0.dates today ⟨now, comboEntries w today⟩) = _
    exact dictInsert_lookup_self _ _ _
  · rw [comboEntries_eq,
      lookup_append_right (comboPair_lookup_ne w today "foot" "M" _ (by decide) (by decide)),
      lookup_append_right (comboPair_lookup_ne w today "foot" "W" _ (by decide) (by decide)),
      lookup_append_right (comboPair_lookup_ne w today "sprint" "M" _ (by decide) (by decide))]
    unfold comboPair
    rw [comboIof_eq_nil_of_err w today "sprint" "W" hfail, List.nil_append]
    exact comboJoa_lookup_ne w "sprint" "W" _ (by decide)
  · intro d g n hmem hio hw
    simp only [List.mem_cons, List.not_mem_nil, or_false] at hmem
    rcases hmem with h | h | h
    · injection h with h1 h2
      subst h1
      subst h2
      rw [comboEntries_eq]
      exact lookup_append_left (comboPair_lookup_iof w today "foot" "M" n hio hw)
    · injection h with h1 h2
      subst h1
      subst h2
      rw [comboEntries_eq,
        lookup_append_right (comboPair_lookup_ne w today "foot" "M" _ (by decide) (by decide))]
      exact lookup_append_left (comboPair_lookup_iof w today "foot" "W" n hio hw)
    · injection h with h1 h2
      subst h1
      subst h2
      rw [comboEntries_eq,
        lookup_append_right (comboPair_lookup_ne w today "foot" "M" _ (by decide) (by decide)),
        lookup_append_right (comboPair_lookup_ne w today "foot" "W" _ (by decide) (by decide))]
      exact lookup_append_left (comboPair_lookup_iof w today "sprint" "M" n hio hw)
  · intro d g jdate n hmem hjo hw
    simp only [List.mem_cons, List.not_mem_nil, or_false] at hmem
    rcases hmem with h | h | h | h
    · injection h with h1 h2
      subst h1
      subst h2
      rw [comboEntries_eq]
      exact lookup_append_left (comboPair_lookup_joa w today "foot" "M" jdate n hjo hw (by decide))
    · injection h with h1 h2
      subst h1
      subst h2
      rw [comboEntries_eq,
        lookup_append_right (comboPair_lookup_ne w today "foot" "M" _ (by decide) (by decide))]
      exact lookup_append_left (comboPair_lookup_joa w today "foot" "W" jdate n hjo hw (by decide))
    · injection h with h1 h2
      subst h1
      subst h2
      rw [comboEntries_eq,
        lookup_append_right (comboPair_lookup_ne w today "foot" "M" _ (by decide) (by decide)),
        lookup_append_right (comboPair_lookup_ne w today "foot" "W" _ (by decide) (by decide))]
      exact lookup_append_left
        (comboPair_lookup_joa w today "sprint" "M" jdate n hjo hw (by decide))
    · injection h with h1 h2
      subst h1
      subst h2
      rw [comboEntries_eq,
        lookup_append_right (comboPair_lookup_ne w today "foot" "M" _ (by decide) (by decide)),
        lookup_append_right (comboPair_lookup_ne w today "foot" "W" _ (by decide) (by decide)),
        lookup_append_right (comboPair_lookup_ne w today "sprint" "M" _ (by decide) (by decide))]
      exact comboPair_lookup_joa w today "sprint" "W" jdate n hjo hw (by decide)

/-- A run outcome where only the IOF (sprint, W) fetch fails. -/
def worldOneFailure : World :=
  ⟨fun d g => if d = "sprint" ∧ g = "W" then .error () else .ok 3,
   fun _ _ => true,
   fun _ _ => .ok (some ("2026-10-12", 7)),
   fun _ _ => true⟩

/-- Witness for C1 on a concrete world with exactly one failing combination. -/
theorem main_combination_isolation_witness :
    worldOneFailure.iof "sprint" "W" = .error () ∧
    List.lookup (iofKey "sprint" (pyLower "W")) (comboEntries worldOneFailure "2026-10-12") =
      none ∧
    List.lookup (iofKey "foot" (pyLower "M")) (comboEntries worldOneFailure "2026-10-12") =
      some ⟨iofFileName "foot" (pyLower "M") "2026-10-12", 3⟩ ∧
    List.lookup (joaKey "sprint" (pyLower "W")) (comboEntries worldOneFailure "2026-10-12") =
      some ⟨joaFileName "sprint" (pyLower "W") "2026-10-12", 7⟩ :=
  ⟨rfl,
   (main_combination_isolation worldOneFailure ⟨"", []⟩ "2026-10-12" "T" rfl).2.1,
   (main_combination_isolation worldOneFailure ⟨"", []⟩ "2026-10-12" "T" rfl).2.2.1
     "foot" "M" 3 (by decide) rfl rfl,
   (main_combination_isolation worldOneFailure ⟨"", []⟩ "2026-10-12" "T" rfl).2.2.2
     "sprint" "W" "2026-10-12" 7 (by decide) rfl rfl⟩

/-! ### C8 — no top-level failure mode -/

/-- C8: when every IOF and JOA fetch raises, `main` still completes (it is a
total function of the outcome oracle), writes `latest.json` as an exact copy
of `index.json`, and today's entry carries only the `updatedAt` timestamp and
no per-combination keys. -/
theorem main_all_failures_empty_entry (w : World) (index0 : Index) (today now : String)
    (hiof : ∀ d g, w.iof d g = .error ()) (hjoa : ∀ d g, w.joa d g = .error ()) :
    List.lookup today (main w index0 today now).indexFile.dates = some ⟨now, []⟩ ∧
    (main w index0 today now).latestFile = (main w index0 today now).indexFile ∧
    (main w index0 today now).indexFile.latestDate = today := by
  have hp : ∀ d g : String, comboPair w today d g = [] := by
    intro d g
    unfold comboPair
    rw [comboIof_eq_nil_of_err w today d g (hiof d g),
      comboJoa_eq_nil_of_err w d g (hjoa d g)]
    rfl
  have hce : comboEntries w today = [] := by
    rw [comboEntries_eq, hp, hp, hp, hp]
    rfl
  refine ⟨?_, rfl, rfl⟩
  show List.lookup today (dictInsert index0.dates today ⟨now, comboEntries w today⟩) = _
  rw [hce]
  exact dictInsert_lookup_self _ _ _

/-- A run outcome where every fetch raises. -/
def worldAllFail : World :=
  ⟨fun _ _ => .error (), fun _ _ => true, fun _ _ => .error (), fun _ _ => true⟩

/-- An index carrying one earlier date, for the `main` witnesses. -/
def sampleIndex : Index := ⟨"2025-01-01", [("2025-01-01", ⟨"T0", []⟩)]⟩

/-- Witness for C8 on the all-failures world. -/
theorem main_all_failures_empty_entry_witness :
    List.lookup "2026-10-12"
        (main worldAllFail sampleIndex "2026-10-12" "T1").indexFile.dates =
      some ⟨"T1", []⟩ ∧
    (main worldAllFail sampleIndex "2026-10-12" "T1").latestFile =
      (main worldAllFail sampleIndex "2026-10-12" "T1").indexFile :=
  ⟨(main_all_failures_empty_entry worldAllFail sampleIndex "2026-10-12" "T1"
      (fun _ _ => rfl) (fun _ _ => rfl)).1,
   (main_all_failures_empty_entry worldAllFail sampleIndex "2026-10-12" "T1"
      (fun _ _ => rfl) (fun _ _ => rfl)).2.1⟩

/-! ### C9 — the index is updated only at today's date -/

/-- C9: a run replaces today's index entry wholesale (the written entry does
not depend on the loaded index), leaves the entry of every other date
unchanged, and re-running for the same date keeps the date keys duplicate
free. -/
theorem main_updates_only_today (w : World) (index0 : Index) (today now d2 : String) :
    (d2 ≠ today →
      List.lookup d2 (main w index0 today now).indexFile.dates =
        List.lookup d2 index0.dates) ∧
    List.lookup today (main w index0 today now).indexFile.dates =
      some ⟨now, comboEntries w today⟩ ∧
    ((index0.dates.map Prod.fst).Nodup →
      (((main w index0 today now).indexFile.dates).map Prod.fst).Nodup) := by
  refine ⟨?_, ?_, ?_⟩
  · intro hne
    show List.lookup d2 (dictInsert index0.dates today ⟨now, comboEntries w today⟩) = _
    exact dictInsert_lookup_ne _ _ _ _ hne
  · show List.lookup today (dictInsert index0.dates today ⟨now, comboEntries w today⟩) = _
    exact dictInsert_lookup_self _ _ _
  · intro h
    exact dictInsert_keys_nodup _ _ _ h

/-- Witness for C9: a re-run on an index that already holds an earlier date
preserves that date, writes today's entry, and keeps the keys duplicate
free. -/
theorem main_updates_only_today_witness :
    List.lookup "2025-01-01"
        (main worldAllFail sampleIndex "2026-10-12" "T1").indexFile.dates =
      List.lookup "2025-01-01" sampleIndex.dates ∧
    List.lookup "2026-10-12"
        (main worldAllFail sampleIndex "2026-10-12" "T1").indexFile.dates =
      some ⟨"T1", comboEntries worldAllFail "2026-10-12"⟩ ∧
    (((main worldAllFail sampleIndex "2026-10-12" "T1").indexFile.dates).map Prod.fst).Nodup :=
  ⟨(main_updates_only_today worldAllFail sampleIndex "2026-10-12" "T1" "2025-01-01").1
     (by decide),
   (main_updates_only_today worldAllFail sampleIndex "2026-10-12" "T1" "2025-01-01").2.1,
   (main_updates_only_today worldAllFail sampleIndex "2026-10-12" "T1" "2025-01-01").2.2
     (by decide)⟩

/-! ### C10 — out-of-domain arguments to `fetch_iof` -/

/-- C10: for a discipline outside {foot, sprint} or a gender outside {M, W},
`fetch_iof` raises `KeyError` from the map lookup, and no HTTP request is
issued (the returned request trace is empty). -/
theorem fetch_iof_out_of_domain_keyerror
    (http : String → Except Unit (List IofEntry)) (discipline gender : String)
    (h : discipline ∉ ["foot", "sprint"] ∨ gender ∉ ["M", "W"]) :
    fetch_iof http discipline gender = (.error .keyError, []) := by
  unfold fetch_iof
  rcases h with h | h
  · have h1 : (discipline == "foot") = false := by
      simp only [beq_eq_false_iff_ne]
      intro hd; exact h (by simp [hd])
    have h2 : (discipline == "sprint") = false := by
      simp only [beq_eq_false_iff_ne]
      intro hd; exact h (by simp [hd])
    simp [IOF_DISCIPLINE_MAP, List.lookup, h1, h2]
  · have h1 : (gender == "M") = false := by
      simp only [beq_eq_false_iff_ne]
      intro hg; exact h (by simp [hg])
    have h2 : (gender == "W") = false := by
      simp only [beq_eq_false_iff_ne]
      intro hg; exact h (by simp [hg])
    cases hl : IOF_DISCIPLINE_MAP.lookup discipline with
    | none => rfl
    | some disc_code => simp [IOF_GROUP_MAP, List.lookup, h1, h2]

/-- Witness for C10 at a concrete unsupported discipline. -/
theorem fetch_iof_out_of_domain_keyerror_witness :
    fetch_iof (fun _ => Except.error ()) "ski" "M" = (.error .keyError, []) :=
  fetch_iof_out_of_domain_keyerror _ "ski" "M" (by decide)

end FetchUpdate
